import Mathlib

/-!
Shallow embedding of the keep-safe encrypted secret store.

Part 1 — byte-level primitives shared by the crypto embedding:
bytes are `Nat` values kept below 256 by masking with `&&& 0xff`
(mirroring 8-bit `Buffer` cells), hex encode/decode mirrors Node's
`Buffer`/hex semantics (lowercase output; lenient decoding that stops
at the first invalid pair, as documented for `Buffer.from(str, 'hex')`).
-/

namespace KeepSafe

/-- Byte-wise xor, masked to 8 bits (a `Buffer` cell). -/
def xor8 (a b : Nat) : Nat := (a ^^^ b) &&& 0xff

theorem xor8_lt (a b : Nat) : xor8 a b < 256 :=
  Nat.lt_succ_of_le (Nat.and_le_right)

/-- The byte-level xor is an involution on bytes: masking keeps only the
low 8 bits, and xoring the same value twice cancels there. -/
theorem xor8_xor8 (p k : Nat) (hp : p < 256) : xor8 (xor8 p k) k = p := by
  unfold xor8
  apply Nat.eq_of_testBit_eq
  intro i
  simp only [Nat.testBit_and, Nat.testBit_xor]
  have h255 : (0xff : Nat) = 2 ^ 8 - 1 := by norm_num
  rw [h255, Nat.testBit_two_pow_sub_one]
  by_cases hi : i < 8
  · simp [hi, Bool.xor_assoc]
  · have : p.testBit i = false := Nat.testBit_lt_two_pow (Nat.lt_of_lt_of_le hp (by
      have : (256 : Nat) = 2 ^ 8 := by norm_num
      rw [this]
      exact Nat.pow_le_pow_right (by norm_num) (Nat.le_of_not_lt hi)))
    simp [hi, this]

/-- Big-endian interpretation of a byte list as a natural number
(each cell masked to 8 bits). -/
def beBytesToNat (bs : List Nat) : Nat :=
  bs.foldl (fun acc b => acc * 256 + (b &&& 0xff)) 0

/-- Big-endian serialization of the low `len` bytes of a natural number. -/
def natToBeBytes (n len : Nat) : List Nat :=
  (List.range len).map (fun i => (n >>> (8 * (len - 1 - i))) &&& 0xff)

theorem natToBeBytes_length (n len : Nat) : (natToBeBytes n len).length = len := by
  simp [natToBeBytes]

theorem natToBeBytes_lt (n len : Nat) : ∀ b ∈ natToBeBytes n len, b < 256 := by
  intro b hb
  simp only [natToBeBytes, List.mem_map] at hb
  obtain ⟨i, _, rfl⟩ := hb
  exact Nat.lt_succ_of_le Nat.and_le_right

/-- Lowercase hex digit for a value below 16 (Node hex output is lowercase). -/
def hexDigit (d : Nat) : Char :=
  if d < 10 then Char.ofNat (48 + d) else Char.ofNat (87 + d)

/-- Hex value of a character, accepting both cases (Node hex input is
case-insensitive); `none` for non-hex characters. -/
def hexVal (c : Char) : Option Nat :=
  if 48 ≤ c.toNat ∧ c.toNat ≤ 57 then some (c.toNat - 48)
  else if 97 ≤ c.toNat ∧ c.toNat ≤ 102 then some (c.toNat - 87)
  else if 65 ≤ c.toNat ∧ c.toNat ≤ 70 then some (c.toNat - 55)
  else none

/-- Whether a character is a hex digit, in either case (the character class
of the `normalizeKey` regex). -/
def isHexDigitChar (c : Char) : Bool := (hexVal c).isSome

/-- Hex encoding of a byte list, as the character list of the output
string (`Buffer.prototype.toString('hex')`, lowercase). -/
def hexEncodeChars (bs : List Nat) : List Char :=
  bs.flatMap (fun b => [hexDigit (b / 16), hexDigit (b % 16)])

/-- Hex encoding of a byte list as a string. -/
def hexEncode (bs : List Nat) : String :=
  String.mk (hexEncodeChars bs)

/-- Node's lenient hex decoder over a character list: decodes complete
valid pairs from the front and stops at the first invalid (or dangling)
character, without throwing — the documented `Buffer.from(str, 'hex')`
behaviour. -/
def hexPairs : List Char → List Nat
  | c1 :: c2 :: rest =>
    match hexVal c1, hexVal c2 with
    | some a, some b => (a * 16 + b) :: hexPairs rest
    | _, _ => []
  | _ => []

/-- Node's lenient hex decoder over a string (`Buffer.from(s, 'hex')`). -/
def hexDecodeLenient (s : String) : List Nat :=
  hexPairs s.data

theorem hexVal_hexDigit : ∀ d, d < 16 → hexVal (hexDigit d) = some d := by decide

theorem hexPairs_encode (bs : List Nat) (hb : ∀ b ∈ bs, b < 256) (rest : List Char) :
    hexPairs (hexEncodeChars bs ++ rest) = bs ++ hexPairs rest := by
  induction bs with
  | nil => simp [hexEncodeChars]
  | cons b bs ih =>
    have hblt : b < 256 := hb b (List.mem_cons_self ..)
    have h1 : b / 16 < 16 := by omega
    have h2 : b % 16 < 16 := by omega
    have hbs : ∀ x ∈ bs, x < 256 := fun x hx => hb x (List.mem_cons_of_mem _ hx)
    simp only [hexEncodeChars, List.flatMap_cons, List.append_assoc, List.cons_append,
      List.nil_append]
    rw [hexPairs]
    simp only [hexVal_hexDigit _ h1, hexVal_hexDigit _ h2]
    have : b / 16 * 16 + b % 16 = b := by omega
    rw [this]
    simpa [hexEncodeChars] using ih hbs

/-- Decoding inverts encoding on genuine byte lists. -/
theorem hexDecodeLenient_hexEncode (bs : List Nat) (hb : ∀ b ∈ bs, b < 256) :
    hexDecodeLenient (hexEncode bs) = bs := by
  have := hexPairs_encode bs hb []
  simpa [hexDecodeLenient, hexEncode, hexPairs] using this

theorem hexEncodeChars_length (bs : List Nat) :
    (hexEncodeChars bs).length = 2 * bs.length := by
  induction bs with
  | nil => simp [hexEncodeChars]
  | cons b bs ih =>
    simp only [hexEncodeChars, List.flatMap_cons] at *
    simp [ih]
    omega

theorem hexEncode_length (bs : List Nat) : (hexEncode bs).length = 2 * bs.length := by
  simpa [hexEncode, String.length] using hexEncodeChars_length bs

/-- On genuine byte lists hex encoding is injective (decode inverts it). -/
theorem hexEncode_injective (bs cs : List Nat) (hbs : ∀ b ∈ bs, b < 256)
    (hcs : ∀ c ∈ cs, c < 256) (h : hexEncode bs = hexEncode cs) : bs = cs := by
  have := hexDecodeLenient_hexEncode bs hbs
  rw [h, hexDecodeLenient_hexEncode cs hcs] at this
  exact this.symm

end KeepSafe

/-!
Part 2 — UTF-8 codec. `cipher.update(value, 'utf8', ...)` encodes the
plaintext string as UTF-8 bytes and `decipher.update(..., 'hex', 'utf8')`
decodes bytes back to a string. The decoder below follows the WHATWG
byte-range table on valid input; on invalid input it emits U+FFFD and
resynchronises (an approximation of the replacement policy that no
theorem in this development depends on — decryption only ever decodes
byte sequences that were produced by the encoder).
-/

namespace KeepSafe

/-- UTF-8 encoding of one scalar value (1 to 4 bytes). -/
def utf8EncodeChar (c : Char) : List Nat :=
  let n := c.toNat
  if n < 0x80 then [n]
  else if n < 0x800 then [0xC0 + n / 64, 0x80 + n % 64]
  else if n < 0x10000 then [0xE0 + n / 4096, 0x80 + n / 64 % 64, 0x80 + n % 64]
  else [0xF0 + n / 262144, 0x80 + n / 4096 % 64, 0x80 + n / 64 % 64, 0x80 + n % 64]

/-- UTF-8 encoding of a whole string. -/
def utf8Encode (s : String) : List Nat :=
  s.data.flatMap utf8EncodeChar

/-- The replacement character U+FFFD emitted for invalid input bytes. -/
def uReplChar : Char := Char.ofNat 0xFFFD

/-- Lower bound of the second byte of a three-byte sequence (E0 excludes
overlong encodings). -/
def lo3 (b : Nat) : Nat := if b = 0xE0 then 0xA0 else 0x80

/-- Upper bound of the second byte of a three-byte sequence (ED excludes
surrogates). -/
def hi3 (b : Nat) : Nat := if b = 0xED then 0x9F else 0xBF

/-- Lower bound of the second byte of a four-byte sequence (F0 excludes
overlong encodings). -/
def lo4 (b : Nat) : Nat := if b = 0xF0 then 0x90 else 0x80

/-- Upper bound of the second byte of a four-byte sequence (F4 caps the
range at U+10FFFF). -/
def hi4 (b : Nat) : Nat := if b = 0xF4 then 0x8F else 0xBF

/-- Total UTF-8 decoder over a byte list. Branch conditions read ahead
with `getD` and consume with `drop`, so each arm of the recursion is a
plain if-then-else (one decoded character per step). -/
def utf8DecodeChars : List Nat → List Char
  | [] => []
  | b :: rest =>
    if b < 0x80 then Char.ofNat b :: utf8DecodeChars rest
    else if 0xC2 ≤ b ∧ b ≤ 0xDF then
      if 1 ≤ rest.length ∧ 0x80 ≤ rest.getD 0 0 ∧ rest.getD 0 0 ≤ 0xBF then
        Char.ofNat ((b - 0xC0) * 64 + (rest.getD 0 0 - 0x80)) :: utf8DecodeChars (rest.drop 1)
      else uReplChar :: utf8DecodeChars rest
    else if 0xE0 ≤ b ∧ b ≤ 0xEF then
      if 2 ≤ rest.length ∧ lo3 b ≤ rest.getD 0 0 ∧ rest.getD 0 0 ≤ hi3 b ∧
          0x80 ≤ rest.getD 1 0 ∧ rest.getD 1 0 ≤ 0xBF then
        Char.ofNat ((b - 0xE0) * 4096 + (rest.getD 0 0 - 0x80) * 64 + (rest.getD 1 0 - 0x80)) ::
          utf8DecodeChars (rest.drop 2)
      else uReplChar :: utf8DecodeChars rest
    else if 0xF0 ≤ b ∧ b ≤ 0xF4 then
      if 3 ≤ rest.length ∧ lo4 b ≤ rest.getD 0 0 ∧ rest.getD 0 0 ≤ hi4 b ∧
          0x80 ≤ rest.getD 1 0 ∧ rest.getD 1 0 ≤ 0xBF ∧
          0x80 ≤ rest.getD 2 0 ∧ rest.getD 2 0 ≤ 0xBF then
        Char.ofNat ((b - 0xF0) * 262144 + (rest.getD 0 0 - 0x80) * 4096 +
            (rest.getD 1 0 - 0x80) * 64 + (rest.getD 2 0 - 0x80)) ::
          utf8DecodeChars (rest.drop 3)
      else uReplChar :: utf8DecodeChars rest
    else uReplChar :: utf8DecodeChars rest
termination_by l => l.length
decreasing_by all_goals (simp only [List.length_cons, List.length_drop]; omega)

/-- Total UTF-8 decoder producing a string. -/
def utf8DecodeLossy (bs : List Nat) : String :=
  String.mk (utf8DecodeChars bs)

theorem utf8EncodeChar_lt (c : Char) : ∀ b ∈ utf8EncodeChar c, b < 256 := by
  have hval : c.toNat < 0xd800 ∨ (0xdfff < c.toNat ∧ c.toNat < 0x110000) := c.valid
  intro b hb
  simp only [utf8EncodeChar] at hb
  split at hb
  · simp only [List.mem_singleton] at hb
    omega
  · split at hb
    · simp only [List.mem_cons, List.not_mem_nil, or_false] at hb
      omega
    · split at hb
      · simp only [List.mem_cons, List.not_mem_nil, or_false] at hb
        omega
      · simp only [List.mem_cons, List.not_mem_nil, or_false] at hb
        omega

theorem utf8Encode_lt (s : String) : ∀ b ∈ utf8Encode s, b < 256 := by
  intro b hb
  simp only [utf8Encode, List.mem_flatMap] at hb
  obtain ⟨c, _, hc⟩ := hb
  exact utf8EncodeChar_lt c b hc

/-- Decoding one encoded scalar value at the head of a byte stream yields
exactly that character and proceeds with the rest of the stream. -/
theorem utf8DecodeChars_encode_cons (c : Char) (rest : List Nat) :
    utf8DecodeChars (utf8EncodeChar c ++ rest) = c :: utf8DecodeChars rest := by
  have hval : c.toNat < 0xd800 ∨ (0xdfff < c.toNat ∧ c.toNat < 0x110000) := c.valid
  unfold utf8EncodeChar
  by_cases h1 : c.toNat < 0x80
  · rw [if_pos h1]
    simp only [List.cons_append, List.nil_append]
    conv_lhs => rw [utf8DecodeChars.eq_def]
    simp only [if_pos h1, Char.ofNat_toNat]
  · rw [if_neg h1]
    by_cases h2 : c.toNat < 0x800
    · rw [if_pos h2]
      simp only [List.cons_append, List.nil_append]
      conv_lhs => rw [utf8DecodeChars.eq_def]
      simp only [List.getD_cons_zero, List.getD_cons_succ, List.length_cons,
        List.drop_succ_cons, List.drop_zero]
      rw [if_neg (show ¬(0xC0 + c.toNat / 64 < 0x80) by omega),
        if_pos (show 0xC2 ≤ 0xC0 + c.toNat / 64 ∧ 0xC0 + c.toNat / 64 ≤ 0xDF by omega),
        if_pos (show 1 ≤ rest.length + 1 ∧ 0x80 ≤ 0x80 + c.toNat % 64 ∧
          0x80 + c.toNat % 64 ≤ 0xBF by omega)]
      have harith : (0xC0 + c.toNat / 64 - 0xC0) * 64 + (0x80 + c.toNat % 64 - 0x80) =
          c.toNat := by omega
      rw [harith, Char.ofNat_toNat]
    · rw [if_neg h2]
      by_cases h3 : c.toNat < 0x10000
      · rw [if_pos h3]
        simp only [List.cons_append, List.nil_append]
        conv_lhs => rw [utf8DecodeChars.eq_def]
        simp only [List.getD_cons_zero, List.getD_cons_succ, List.length_cons,
          List.drop_succ_cons, List.drop_zero]
        rw [if_neg (show ¬(0xE0 + c.toNat / 4096 < 0x80) by omega),
          if_neg (show ¬(0xC2 ≤ 0xE0 + c.toNat / 4096 ∧ 0xE0 + c.toNat / 4096 ≤ 0xDF) by omega),
          if_pos (show 0xE0 ≤ 0xE0 + c.toNat / 4096 ∧ 0xE0 + c.toNat / 4096 ≤ 0xEF by omega)]
        rw [if_pos (show 2 ≤ rest.length + 1 + 1 ∧
            lo3 (0xE0 + c.toNat / 4096) ≤ 0x80 + c.toNat / 64 % 64 ∧
            0x80 + c.toNat / 64 % 64 ≤ hi3 (0xE0 + c.toNat / 4096) ∧
            0x80 ≤ 0x80 + c.toNat % 64 ∧ 0x80 + c.toNat % 64 ≤ 0xBF by
          refine ⟨by omega, ?_, ?_, by omega, by omega⟩
          · unfold lo3
            split <;> omega
          · unfold hi3
            split <;> omega)]
        have harith : (0xE0 + c.toNat / 4096 - 0xE0) * 4096 +
            (0x80 + c.toNat / 64 % 64 - 0x80) * 64 + (0x80 + c.toNat % 64 - 0x80) =
            c.toNat := by omega
        rw [harith, Char.ofNat_toNat]
      · rw [if_neg h3]
        simp only [List.cons_append, List.nil_append]
        conv_lhs => rw [utf8DecodeChars.eq_def]
        simp only [List.getD_cons_zero, List.getD_cons_succ, List.length_cons,
          List.drop_succ_cons, List.drop_zero]
        rw [if_neg (show ¬(0xF0 + c.toNat / 262144 < 0x80) by omega),
          if_neg (show ¬(0xC2 ≤ 0xF0 + c.toNat / 262144 ∧ 0xF0 + c.toNat / 262144 ≤ 0xDF) by
            omega),
          if_neg (show ¬(0xE0 ≤ 0xF0 + c.toNat / 262144 ∧ 0xF0 + c.toNat / 262144 ≤ 0xEF) by
            omega),
          if_pos (show 0xF0 ≤ 0xF0 + c.toNat / 262144 ∧ 0xF0 + c.toNat / 262144 ≤ 0xF4 by
            omega)]
        rw [if_pos (show 3 ≤ rest.length + 1 + 1 + 1 ∧
            lo4 (0xF0 + c.toNat / 262144) ≤ 0x80 + c.toNat / 4096 % 64 ∧
            0x80 + c.toNat / 4096 % 64 ≤ hi4 (0xF0 + c.toNat / 262144) ∧
            0x80 ≤ 0x80 + c.toNat / 64 % 64 ∧ 0x80 + c.toNat / 64 % 64 ≤ 0xBF ∧
            0x80 ≤ 0x80 + c.toNat % 64 ∧ 0x80 + c.toNat % 64 ≤ 0xBF by
          refine ⟨by omega, ?_, ?_, by omega, by omega, by omega, by omega⟩
          · unfold lo4
            split <;> omega
          · unfold hi4
            split <;> omega)]
        have harith : (0xF0 + c.toNat / 262144 - 0xF0) * 262144 +
            (0x80 + c.toNat / 4096 % 64 - 0x80) * 4096 +
            (0x80 + c.toNat / 64 % 64 - 0x80) * 64 + (0x80 + c.toNat % 64 - 0x80) =
            c.toNat := by omega
        rw [harith, Char.ofNat_toNat]

/-- Decoding inverts encoding, character list level. -/
theorem utf8DecodeChars_utf8Encode_data (cs : List Char) :
    utf8DecodeChars (cs.flatMap utf8EncodeChar) = cs := by
  induction cs with
  | nil => rw [List.flatMap_nil, utf8DecodeChars.eq_def]
  | cons c cs ih => rw [List.flatMap_cons, utf8DecodeChars_encode_cons, ih]

/-- Decoding inverts encoding, string level. -/
theorem utf8DecodeLossy_utf8Encode (s : String) : utf8DecodeLossy (utf8Encode s) = s := by
  rw [utf8DecodeLossy, utf8Encode, utf8DecodeChars_utf8Encode_data]

end KeepSafe

/-!
Part 3 — AES-256 forward block cipher (FIPS-197), the cipher behind
Node's `aes-256-gcm`. GCM only ever uses the forward direction (CTR
keystream, `E_K(0)`, `E_K(J0)`), so the inverse cipher is not modelled.
The state is a flat 16-byte list in FIPS column-major order
(`state[r][c] = flat[r + 4c]`); the S-box is computed from the GF(2^8)
inverse and the affine transformation rather than a hardcoded table.
-/

namespace KeepSafe

/-- Multiplication by x in GF(2^8) modulo x^8 + x^4 + x^3 + x + 1. -/
def xtime (a : Nat) : Nat :=
  if a &&& 0x80 = 0 then (a <<< 1) &&& 0xff else ((a <<< 1) ^^^ 0x1b) &&& 0xff

/-- GF(2^8) multiplication by the 8-step peasant algorithm. -/
def gmul8 (a b : Nat) : Nat :=
  ((List.range 8).foldl (fun (st : Nat × Nat × Nat) _ =>
    let p := st.1
    let x := st.2.1
    let y := st.2.2
    (if y &&& 1 = 1 then (p ^^^ x) &&& 0xff else p, xtime x, y >>> 1))
    (0, a &&& 0xff, b &&& 0xff)).1

/-- GF(2^8) multiplicative inverse (0 maps to 0): a^254 by repeated
multiplication. -/
def ginv8 (a : Nat) : Nat :=
  (List.range 253).foldl (fun acc _ => gmul8 acc a) (a &&& 0xff)

/-- Rotate an 8-bit value left by `n` bits. -/
def rotl8 (x n : Nat) : Nat := ((x <<< n) ||| (x >>> (8 - n))) &&& 0xff

/-- The AES S-box: multiplicative inverse followed by the affine map. -/
def sbox (b : Nat) : Nat :=
  let i := ginv8 b
  (i ^^^ rotl8 i 1 ^^^ rotl8 i 2 ^^^ rotl8 i 3 ^^^ rotl8 i 4 ^^^ 0x63) &&& 0xff

/-- Apply the S-box to each byte of a word. -/
def subWord (w : List Nat) : List Nat := w.map sbox

/-- Rotate a 4-byte word left by one byte. -/
def rotWord (w : List Nat) : List Nat := w.drop 1 ++ w.take 1

/-- AES round constants (AES-256 key expansion uses indices 1..7). -/
def rcon (i : Nat) : Nat := [0x00, 0x01, 0x02, 0x04, 0x08, 0x10, 0x20, 0x40].getD i 0

/-- AES-256 key expansion: 60 four-byte words from the 32-byte key. -/
def aesKeyWords (key : List Nat) : List (List Nat) :=
  let w0 := (List.range 8).map (fun i => (key.drop (4 * i)).take 4)
  (List.range 52).foldl (fun ws _ =>
    let i := ws.length
    let prev := ws.getD (i - 1) [0, 0, 0, 0]
    let old := ws.getD (i - 8) [0, 0, 0, 0]
    let t :=
      if i % 8 = 0 then List.zipWith xor8 (subWord (rotWord prev)) [rcon (i / 8), 0, 0, 0]
      else if i % 8 = 4 then subWord prev
      else prev
    ws ++ [List.zipWith xor8 old t]) w0

/-- Round key `r` (16 bytes) from the expanded key schedule. -/
def aesRoundKey (key : List Nat) (r : Nat) : List Nat :=
  (List.range 16).map (fun i => (aesKeyWords key).flatten.getD (16 * r + i) 0)

/-- SubBytes on the flat state. -/
def subBytes (s : List Nat) : List Nat :=
  (List.range 16).map (fun j => sbox (s.getD j 0))

/-- ShiftRows on the flat state: row `r` rotates left by `r` columns. -/
def shiftRows (s : List Nat) : List Nat :=
  (List.range 16).map (fun j => s.getD (j % 4 + 4 * ((j / 4 + j % 4) % 4)) 0)

/-- MixColumns on the flat state. -/
def mixColumns (s : List Nat) : List Nat :=
  (List.range 16).map (fun j =>
    let c := j / 4
    let a0 := s.getD (4 * c) 0
    let a1 := s.getD (4 * c + 1) 0
    let a2 := s.getD (4 * c + 2) 0
    let a3 := s.getD (4 * c + 3) 0
    if j % 4 = 0 then xor8 (xor8 (gmul8 2 a0) (gmul8 3 a1)) (xor8 a2 a3)
    else if j % 4 = 1 then xor8 (xor8 a0 (gmul8 2 a1)) (xor8 (gmul8 3 a2) a3)
    else if j % 4 = 2 then xor8 (xor8 a0 a1) (xor8 (gmul8 2 a2) (gmul8 3 a3))
    else xor8 (xor8 (gmul8 3 a0) a1) (xor8 a2 (gmul8 2 a3)))

/-- AddRoundKey on the flat state. -/
def addRoundKey (s rk : List Nat) : List Nat :=
  (List.range 16).map (fun j => xor8 (s.getD j 0) (rk.getD j 0))

/-- AES-256 forward cipher: 13 full rounds between the initial and final
AddRoundKey, no MixColumns in the last round. -/
def aesEncryptBlock (key blk : List Nat) : List Nat :=
  let s0 := addRoundKey blk (aesRoundKey key 0)
  let sN := (List.range 13).foldl
    (fun s r => addRoundKey (mixColumns (shiftRows (subBytes s))) (aesRoundKey key (r + 1))) s0
  addRoundKey (shiftRows (subBytes sN)) (aesRoundKey key 14)

theorem addRoundKey_length (s rk : List Nat) : (addRoundKey s rk).length = 16 := by
  simp [addRoundKey]

theorem addRoundKey_lt (s rk : List Nat) : ∀ b ∈ addRoundKey s rk, b < 256 := by
  intro b hb
  simp only [addRoundKey, List.mem_map] at hb
  obtain ⟨j, _, rfl⟩ := hb
  exact xor8_lt _ _

theorem aesEncryptBlock_length (key blk : List Nat) :
    (aesEncryptBlock key blk).length = 16 := addRoundKey_length _ _

theorem aesEncryptBlock_lt (key blk : List Nat) :
    ∀ b ∈ aesEncryptBlock key blk, b < 256 := addRoundKey_lt _ _

end KeepSafe

/-!
Part 4 — GCM mode (NIST SP 800-38D) over the AES-256 block cipher:
GHASH over GF(2^128), J0 derivation (the service passes a 16-byte IV,
so the general GHASH-based J0 path is the live one), the CTR keystream
and the 128-bit authentication tag. 128-bit blocks are big-endian `Nat`
values, matching the GCM bit convention (bit 0 = most significant).
-/

namespace KeepSafe

/-- The GCM reduction constant R = 11100001 followed by 120 zero bits. -/
def gf128R : Nat := 0xe1 <<< 120

/-- GF(2^128) multiplication, MSB-first bit scan of `x` with the
shift-and-reduce representation of multiplication by `y`. -/
def gf128Mul (x y : Nat) : Nat :=
  ((List.range 128).foldl (fun (st : Nat × Nat) i =>
    let z := st.1
    let v := st.2
    (if x.testBit (127 - i) then z ^^^ v else z,
     if v &&& 1 = 1 then (v >>> 1) ^^^ gf128R else v >>> 1)) (0, y)).1

/-- GHASH: absorb blocks with xor-then-multiply by the hash subkey. -/
def ghash (h : Nat) (blocks : List Nat) : Nat :=
  blocks.foldl (fun y b => gf128Mul (y ^^^ b) h) 0

/-- Split a byte string into 128-bit blocks, zero-padding the last one. -/
def bytesToBlocks (bs : List Nat) : List Nat :=
  (List.range ((bs.length + 15) / 16)).map (fun i =>
    let chunk := (bs.drop (16 * i)).take 16
    beBytesToNat (chunk ++ List.replicate (16 - chunk.length) 0))

/-- The hash subkey H = E_K(0^128). -/
def gcmH (key : List Nat) : Nat :=
  beBytesToNat (aesEncryptBlock key (List.replicate 16 0))

/-- The pre-counter block J0: the 96-bit-IV fast path appends 0^31 1,
any other IV length (the service uses 128 bits) goes through GHASH of
the padded IV followed by its 64-bit bit length. -/
def gcmJ0 (key iv : List Nat) : Nat :=
  if iv.length = 12 then beBytesToNat iv * 4294967296 + 1
  else ghash (gcmH key) (bytesToBlocks iv ++ [8 * iv.length])

/-- The 32-bit incrementing counter: `inc32` applied `i` times to `j0`
(the high 96 bits are fixed, the low 32 wrap modulo 2^32). -/
def inc32at (j0 i : Nat) : Nat :=
  j0 - j0 % 4294967296 + (j0 % 4294967296 + i) % 4294967296

/-- The CTR keystream: blocks E_K(inc32^(i+1)(J0)), truncated to `len`
bytes. -/
def gcmKeystream (key iv : List Nat) (len : Nat) : List Nat :=
  (((List.range ((len + 15) / 16)).map (fun i =>
    aesEncryptBlock key (natToBeBytes (inc32at (gcmJ0 key iv) (i + 1)) 16))).flatten).take len

/-- The 128-bit authentication tag: E_K(J0) xor GHASH over the
ciphertext blocks and the 64-bit lengths block (no associated data). -/
def gcmTag (key iv ct : List Nat) : List Nat :=
  let h := gcmH key
  let s := ghash h (bytesToBlocks ct ++ [8 * ct.length])
  natToBeBytes (beBytesToNat (aesEncryptBlock key (natToBeBytes (gcmJ0 key iv) 16)) ^^^ s) 16

theorem flatten_const16_length (l : List Nat) (f : Nat → List Nat)
    (hf : ∀ i, (f i).length = 16) : ((l.map f).flatten).length = 16 * l.length := by
  induction l with
  | nil => simp
  | cons x xs ih =>
    simp only [List.map_cons, List.flatten_cons, List.length_append, ih, hf, List.length_cons]
    ring

theorem gcmKeystream_length (key iv : List Nat) (len : Nat) :
    (gcmKeystream key iv len).length = len := by
  unfold gcmKeystream
  rw [List.length_take, flatten_const16_length _ _ (fun i => aesEncryptBlock_length _ _),
    List.length_range]
  omega

theorem gcmKeystream_lt (key iv : List Nat) (len : Nat) :
    ∀ b ∈ gcmKeystream key iv len, b < 256 := by
  intro b hb
  unfold gcmKeystream at hb
  have hb2 := List.take_subset _ _ hb
  rw [List.mem_flatten] at hb2
  obtain ⟨blk, hblk, hbmem⟩ := hb2
  rw [List.mem_map] at hblk
  obtain ⟨i, _, rfl⟩ := hblk
  exact aesEncryptBlock_lt _ _ b hbmem

theorem gcmTag_length (key iv ct : List Nat) : (gcmTag key iv ct).length = 16 :=
  natToBeBytes_length _ _

theorem gcmTag_lt (key iv ct : List Nat) : ∀ b ∈ gcmTag key iv ct, b < 256 :=
  natToBeBytes_lt _ _

end KeepSafe

/-!
Part 5 — SHA-256 (FIPS 180-4), the hash behind
`crypto.createHash('sha256')` in `normalizeKey`. 32-bit words are `Nat`
values masked with `&&& 0xffffffff`; the working state is an 8-tuple of
words.
-/

namespace KeepSafe

/-- Trial-division primality test (used only to build the SHA constant
tables). -/
def isPrimeB (p : Nat) : Bool :=
  2 ≤ p && ((List.range p).all fun d => d < 2 || p % d != 0)

/-- The first `n` prime numbers. -/
def firstPrimes (n : Nat) : List Nat :=
  ((List.range 2048).filter isPrimeB).take n

/-- Integer cube root by descending-bit binary search (inputs stay below
2^105, so 40 bits suffice). -/
def icbrt (n : Nat) : Nat :=
  (List.range 40).foldl (fun r i =>
    let c := r + (1 <<< (39 - i))
    if c * c * c ≤ n then c else r) 0

/-- SHA-256 round constants: the first 32 bits of the fractional parts
of the cube roots of the first 64 primes (FIPS 180-4 section 4.2.2). -/
def shaK : List Nat :=
  (firstPrimes 64).map (fun p => icbrt (p <<< 96) % (1 <<< 32))

/-- 32-bit addition. -/
def add32 (a b : Nat) : Nat := (a + b) &&& 0xffffffff

/-- 32-bit right rotation. -/
def rotr32 (x n : Nat) : Nat := ((x >>> n) ||| (x <<< (32 - n))) &&& 0xffffffff

/-- The SHA-256 working-state type: eight 32-bit words. -/
abbrev ShaState := Nat × Nat × Nat × Nat × Nat × Nat × Nat × Nat

/-- Word `i` of the SHA-256 initial hash value: the first 32 bits of
the fractional part of the square root of the `i`-th prime (FIPS 180-4
section 5.3.3). -/
def shaHWord (i : Nat) : Nat :=
  Nat.sqrt (((firstPrimes 8).getD i 0) <<< 64) % (1 <<< 32)

/-- The SHA-256 initial hash value. -/
def shaH0 : ShaState :=
  (shaHWord 0, shaHWord 1, shaHWord 2, shaHWord 3, shaHWord 4, shaHWord 5, shaHWord 6,
   shaHWord 7)

/-- SHA padding: 0x80, zeros to 56 mod 64, then the 64-bit bit length. -/
def shaPad (msg : List Nat) : List Nat :=
  msg ++ [0x80] ++ List.replicate ((119 - msg.length % 64) % 64) 0 ++
    natToBeBytes (8 * msg.length) 8

/-- The 64-word message schedule of one 64-byte block. -/
def shaSchedule (block : List Nat) : List Nat :=
  let w0 := (List.range 16).map (fun i => beBytesToNat ((block.drop (4 * i)).take 4))
  (List.range 48).foldl (fun w _ =>
    let i := w.length
    let s0 := rotr32 (w.getD (i - 15) 0) 7 ^^^ rotr32 (w.getD (i - 15) 0) 18 ^^^
      (w.getD (i - 15) 0 >>> 3)
    let s1 := rotr32 (w.getD (i - 2) 0) 17 ^^^ rotr32 (w.getD (i - 2) 0) 19 ^^^
      (w.getD (i - 2) 0 >>> 10)
    w ++ [add32 (add32 s1 (w.getD (i - 7) 0)) (add32 s0 (w.getD (i - 16) 0))]) w0

/-- One SHA-256 compression step over a 64-byte block. -/
def shaCompress (hs : ShaState) (block : List Nat) : ShaState :=
  let w := shaSchedule block
  let fin := (List.range 64).foldl (fun (st : ShaState) i =>
    let (a, b, c, d, e, f, g, h) := st
    let s1 := rotr32 e 6 ^^^ rotr32 e 11 ^^^ rotr32 e 25
    let ch := (e &&& f) ^^^ ((e ^^^ 0xffffffff) &&& g)
    let t1 := add32 h (add32 s1 (add32 ch (add32 (shaK.getD i 0) (w.getD i 0))))
    let s0 := rotr32 a 2 ^^^ rotr32 a 13 ^^^ rotr32 a 22
    let mj := (a &&& b) ^^^ (a &&& c) ^^^ (b &&& c)
    let t2 := add32 s0 mj
    (add32 t1 t2, a, b, c, add32 d t1, e, f, g)) hs
  (add32 hs.1 fin.1, add32 hs.2.1 fin.2.1, add32 hs.2.2.1 fin.2.2.1,
   add32 hs.2.2.2.1 fin.2.2.2.1, add32 hs.2.2.2.2.1 fin.2.2.2.2.1,
   add32 hs.2.2.2.2.2.1 fin.2.2.2.2.2.1, add32 hs.2.2.2.2.2.2.1 fin.2.2.2.2.2.2.1,
   add32 hs.2.2.2.2.2.2.2 fin.2.2.2.2.2.2.2)

/-- SHA-256 digest of a byte string: 32 bytes. -/
def sha256 (msg : List Nat) : List Nat :=
  let padded := shaPad msg
  let blocks := (List.range (padded.length / 64)).map
    (fun i => (padded.drop (64 * i)).take 64)
  let hf := blocks.foldl shaCompress shaH0
  natToBeBytes hf.1 4 ++ natToBeBytes hf.2.1 4 ++ natToBeBytes hf.2.2.1 4 ++
    natToBeBytes hf.2.2.2.1 4 ++ natToBeBytes hf.2.2.2.2.1 4 ++
    natToBeBytes hf.2.2.2.2.2.1 4 ++ natToBeBytes hf.2.2.2.2.2.2.1 4 ++
    natToBeBytes hf.2.2.2.2.2.2.2 4

theorem sha256_length (msg : List Nat) : (sha256 msg).length = 32 := by
  simp [sha256, natToBeBytes_length]

theorem sha256_lt (msg : List Nat) : ∀ b ∈ sha256 msg, b < 256 := by
  intro b hb
  unfold sha256 at hb
  simp only [List.mem_append] at hb
  rcases hb with ((((((h | h) | h) | h) | h) | h) | h) | h <;>
    exact natToBeBytes_lt _ _ b h

end KeepSafe

/-!
Part 6 — the `CryptoService` of `src/infrastructure/crypto/crypto.ts`.
Randomness (`randomBytes(16)`) is modelled by passing the drawn IV bytes
as an explicit argument to `encrypt`. `decrypt` wraps the whole cipher
interaction in one try/catch and rethrows a single generic error, so
its embedding returns `Except DecryptError` with a single error value:
empty IV (`createDecipheriv` rejects it), an authentication-tag length
outside Node's accepted GCM set {4, 8, 12..16} (`setAuthTag` rejects
it), and a tag mismatch in `final()` all collapse to that error. Hex
fields are decoded with the lenient `Buffer.from(·, 'hex')` semantics,
and a shorter (4..16 byte) stored tag is compared against the truncated
computed tag, as GCM specifies.
-/

namespace KeepSafe

/-- Bundle produced by `CryptoService.encrypt` (three hex strings). -/
structure EncryptedData where
  encryptedValue : String
  iv : String
  authTag : String
deriving Repr, DecidableEq

/-- Result of `CryptoService.decrypt`. -/
structure DecryptedData where
  value : String
deriving Repr, DecidableEq

/-- The single error kind of `CryptoService.decrypt`: every failure path
throws the one generic error of the catch-all handler. -/
inductive DecryptError where
  | failed
deriving Repr, DecidableEq

namespace CryptoService

/-- Key normalization: a 64-character string of hex digits (either case)
is decoded directly to its 32 bytes, anything else is hashed with
SHA-256 over its UTF-8 bytes. -/
def normalizeKey (key : String) : List Nat :=
  if key.length = 64 ∧ key.data.all isHexDigitChar then hexDecodeLenient key
  else sha256 (utf8Encode key)

/-- AES-256-GCM encryption of a plaintext string under a string key,
with the 16 freshly drawn random IV bytes passed explicitly. -/
def encrypt (value secretKey : String) (ivBytes : List Nat) : EncryptedData :=
  let normalizedKey := normalizeKey secretKey
  let pt := utf8Encode value
  let ct := List.zipWith xor8 pt (gcmKeystream normalizedKey ivBytes pt.length)
  { encryptedValue := hexEncode ct
    iv := hexEncode ivBytes
    authTag := hexEncode (gcmTag normalizedKey ivBytes ct) }

/-- AES-256-GCM decryption of a bundle under a string key. -/
def decrypt (encryptedData : EncryptedData) (secretKey : String) :
    Except DecryptError DecryptedData :=
  let normalizedKey := normalizeKey secretKey
  let iv := hexDecodeLenient encryptedData.iv
  let authTag := hexDecodeLenient encryptedData.authTag
  if iv.length = 0 then .error .failed
  else if ¬(authTag.length = 4 ∨ authTag.length = 8 ∨
      (12 ≤ authTag.length ∧ authTag.length ≤ 16)) then .error .failed
  else
    let ct := hexDecodeLenient encryptedData.encryptedValue
    let pt := List.zipWith xor8 ct (gcmKeystream normalizedKey iv ct.length)
    if authTag = (gcmTag normalizedKey iv ct).take authTag.length then
      .ok ⟨utf8DecodeLossy pt⟩
    else .error .failed

end CryptoService

theorem zipWith_xor8_lt (a b : List Nat) : ∀ x ∈ List.zipWith xor8 a b, x < 256 := by
  induction a generalizing b with
  | nil => simp
  | cons x xs ih =>
    cases b with
    | nil => simp
    | cons y ys =>
      intro z hz
      rcases List.mem_cons.mp hz with rfl | hz
      · exact xor8_lt _ _
      · exact ih ys z hz

/-- Xoring the same keystream twice returns the plaintext, provided the
plaintext bytes are genuine bytes and the stream is at least as long. -/
theorem zipWith_xor8_cancel (p k : List Nat) (hp : ∀ b ∈ p, b < 256)
    (hlen : p.length ≤ k.length) :
    List.zipWith xor8 (List.zipWith xor8 p k) k = p := by
  induction p generalizing k with
  | nil => simp
  | cons x xs ih =>
    cases k with
    | nil => simp at hlen
    | cons y ys =>
      simp only [List.zipWith_cons_cons, List.cons.injEq]
      refine ⟨xor8_xor8 x y (hp x (List.mem_cons_self ..)), ?_⟩
      exact ih ys (fun b hb => hp b (List.mem_cons_of_mem _ hb))
        (Nat.le_of_succ_le_succ hlen)

/-- Core round trip, generalized over the literal `iv` field of the
bundle: decryption only sees the decoded IV bytes, so any string that
decodes to the drawn IV bytes gives back the plaintext. -/
theorem decrypt_encrypt_withIvStr (s key : String) (iv : List Nat) (ivStr : String)
    (hdec : hexDecodeLenient ivStr = iv) (hiv : iv ≠ []) :
    CryptoService.decrypt ⟨(CryptoService.encrypt s key iv).encryptedValue, ivStr,
      (CryptoService.encrypt s key iv).authTag⟩ key = .ok ⟨s⟩ := by
  unfold CryptoService.encrypt CryptoService.decrypt
  have hctlt : ∀ x ∈ List.zipWith xor8 (utf8Encode s)
      (gcmKeystream (CryptoService.normalizeKey key) iv (utf8Encode s).length), x < 256 :=
    zipWith_xor8_lt _ _
  have hctdec : hexDecodeLenient (hexEncode (List.zipWith xor8 (utf8Encode s)
      (gcmKeystream (CryptoService.normalizeKey key) iv (utf8Encode s).length))) =
      List.zipWith xor8 (utf8Encode s)
        (gcmKeystream (CryptoService.normalizeKey key) iv (utf8Encode s).length) :=
    hexDecodeLenient_hexEncode _ hctlt
  have htagdec : hexDecodeLenient (hexEncode (gcmTag (CryptoService.normalizeKey key) iv
      (List.zipWith xor8 (utf8Encode s)
        (gcmKeystream (CryptoService.normalizeKey key) iv (utf8Encode s).length)))) =
      gcmTag (CryptoService.normalizeKey key) iv
        (List.zipWith xor8 (utf8Encode s)
          (gcmKeystream (CryptoService.normalizeKey key) iv (utf8Encode s).length)) :=
    hexDecodeLenient_hexEncode _ (gcmTag_lt _ _ _)
  simp only [hdec, hctdec, htagdec, gcmTag_length]
  rw [if_neg (by simpa [List.length_eq_zero] using hiv)]
  rw [if_neg (by omega)]
  have hctlen : (List.zipWith xor8 (utf8Encode s)
      (gcmKeystream (CryptoService.normalizeKey key) iv (utf8Encode s).length)).length =
      (utf8Encode s).length := by
    rw [List.length_zipWith, gcmKeystream_length, Nat.min_self]
  rw [hctlen]
  rw [if_pos (by rw [List.take_of_length_le (Nat.le_of_eq (gcmTag_length _ _ _))])]
  rw [zipWith_xor8_cancel _ _ (utf8Encode_lt s)
    (Nat.le_of_eq (gcmKeystream_length _ _ _).symm)]
  rw [utf8DecodeLossy_utf8Encode]

/-- Core round trip: decrypting the bundle produced by `encrypt` under
the same key recovers the plaintext, for any nonempty IV draw. -/
theorem decrypt_encrypt (s key : String) (iv : List Nat) (hiv : iv ≠ [])
    (hb : ∀ b ∈ iv, b < 256) :
    CryptoService.decrypt (CryptoService.encrypt s key iv) key = .ok ⟨s⟩ :=
  decrypt_encrypt_withIvStr s key iv (hexEncode iv) (hexDecodeLenient_hexEncode iv hb) hiv

end KeepSafe

/-!
Part 7 — the secret controller of `src/api/controllers/secretController.ts`
over an explicit store state. `prisma` queries become list operations on
a `Db` value: `findFirst {where}` is `List.find?`, `findMany` filters
and sorts, `create` appends, `update` maps, `delete` filters. JS request
bodies are modelled with a small `JsValue` type so that JS truthiness
(`!key`, `!value`) and `typeof x !== 'string'` keep their exact
semantics (absent properties read as `undefined`). Effects injected by
the runtime — `process.env.ENCRYPTION_KEY`, the `randomBytes(16)` draw,
the generated row id and the row timestamps — are passed in a `Ctx`
record. Responses carry the literal status code and payload shape the
handlers produce.
-/

namespace KeepSafe

/-- A JS value as far as the handlers inspect request bodies. (`NaN` is
the one falsy JS number not representable here; no claim depends on
it.) -/
inductive JsValue where
  | vUndefined
  | vNull
  | vBool (b : Bool)
  | vNum (n : Int)
  | vStr (s : String)
deriving Repr, DecidableEq

/-- JS truthiness test: the falsy values are `undefined`, `null`,
`false`, `0` and the empty string. -/
def jsFalsy : JsValue → Bool
  | .vUndefined => true
  | .vNull => true
  | .vBool b => !b
  | .vNum n => n == 0
  | .vStr s => s == ""

/-- The `typeof x === 'string'` test. -/
def isString : JsValue → Bool
  | .vStr _ => true
  | _ => false

/-- String content of a `JsValue` (only read behind an `isString`
guard). -/
def asString : JsValue → String
  | .vStr s => s
  | _ => ""

/-- The characters `String.prototype.trim` strips: the ECMA-262
WhiteSpace production (TAB, VT, FF, SP, NBSP, ZWNBSP and every Unicode
Space_Separator code point: OGHAM SPACE MARK, EN QUAD through HAIR
SPACE, NARROW NBSP, MEDIUM MATHEMATICAL SPACE, IDEOGRAPHIC SPACE)
together with the LineTerminator production (LF, CR, LS, PS). -/
def jsWhitespace (c : Char) : Bool :=
  [0x9, 0xA, 0xB, 0xC, 0xD, 0x20, 0xA0, 0x1680, 0x2028, 0x2029, 0x202F, 0x205F, 0x3000,
    0xFEFF].contains c.toNat || (0x2000 ≤ c.toNat && c.toNat ≤ 0x200A)

/-- JS `trim()`: drop leading and trailing whitespace. -/
def jsTrim (s : String) : String :=
  String.mk (((s.data.dropWhile jsWhitespace).reverse.dropWhile jsWhitespace).reverse)

/-- The authenticated principal attached by the auth middleware. -/
structure AuthUser where
  userId : String
  email : String
deriving Repr, DecidableEq

/-- A project row (fields the secret operations read). -/
structure Project where
  id : String
  userId : String
  name : String
deriving Repr, DecidableEq

/-- A secret row, as persisted (`value` holds the serialized bundle). -/
structure Secret where
  id : String
  key : String
  value : String
  projectId : String
  createdAt : Nat
  updatedAt : Nat
deriving Repr, DecidableEq

/-- The persistent store: project and secret tables. -/
structure Db where
  projects : List Project
  secrets : List Secret
deriving Repr, DecidableEq

/-- Runtime-injected effects of one controller call. -/
structure Ctx where
  encryptionKeyEnv : Option String
  ivBytes : List Nat
  freshId : String
  now : Nat
deriving Repr, DecidableEq

/-- Metadata shape returned by list/create/update (`select` without
`value`). -/
structure SecretMeta where
  id : String
  key : String
  createdAt : Nat
  updatedAt : Nat
deriving Repr, DecidableEq

/-- Response payloads the secret handlers can produce. -/
inductive RespBody where
  | errMsg (error : String)
  | secretsList (secrets : List SecretMeta)
  | createdSecret (message : String) (secret : SecretMeta)
  | fullSecret (id key value : String) (createdAt updatedAt : Nat)
  | updatedSecret (message : String) (secret : SecretMeta)
  | message (message : String)
deriving Repr, DecidableEq

/-- An HTTP response: status code and JSON payload shape. -/
structure Resp where
  status : Nat
  body : RespBody
deriving Repr, DecidableEq

/-- Request body as the handlers read it (`req.body.key`,
`req.body.value`; a missing property is `undefined`). -/
structure ReqBody where
  key : JsValue
  value : JsValue
deriving Repr, DecidableEq

/-- JSON serialization of a bundle, the exact field order
`JSON.stringify` emits for `CryptoService.encrypt`'s return object. -/
def encodeBundle (e : EncryptedData) : String :=
  "\x7b\"encryptedValue\":\"" ++ e.encryptedValue ++ "\",\"iv\":\"" ++ e.iv ++
    "\",\"authTag\":\"" ++ e.authTag ++ "\"\x7d"

/-- Parser for the serialization shape `encodeBundle` produces (the only
shape ever stored in `Secret.value`); other JSON inputs — which the
store never contains — yield `none`, standing for a `JSON.parse` result
without the three expected fields. -/
def parseBundle (s : String) : Option EncryptedData :=
  let p1 := "\x7b\"encryptedValue\":\"".data
  let p2 := "\",\"iv\":\"".data
  let p3 := "\",\"authTag\":\"".data
  let p4 := "\"\x7d".data
  let cs := s.data
  if cs.take p1.length ≠ p1 then none
  else
    let r1 := cs.drop p1.length
    let v := r1.takeWhile (· ≠ '"')
    let r2 := r1.drop v.length
    if r2.take p2.length ≠ p2 then none
    else
      let r3 := r2.drop p2.length
      let iv := r3.takeWhile (· ≠ '"')
      let r4 := r3.drop iv.length
      if r4.take p3.length ≠ p3 then none
      else
        let r5 := r4.drop p3.length
        let t := r5.takeWhile (· ≠ '"')
        let r6 := r5.drop t.length
        if r6 = p4 then some ⟨String.mk v, String.mk iv, String.mk t⟩ else none

/-- The module-level encryption key: `process.env.ENCRYPTION_KEY` with
the insecure development fallback. -/
def effectiveEncryptionKey (encryptionKeyEnv : Option String) : String :=
  encryptionKeyEnv.getD "default-key-for-development"

/-- `encryptSecretValue`: encrypt under the module key and serialize the
bundle. -/
def encryptSecretValue (value : String) (encryptionKeyEnv : Option String)
    (ivBytes : List Nat) : String :=
  encodeBundle (CryptoService.encrypt value (effectiveEncryptionKey encryptionKeyEnv) ivBytes)

/-- `decryptSecretValue`: parse the stored serialization and decrypt;
any failure (parse or decrypt) is the single rethrown generic error. -/
def decryptSecretValue (encryptedData : String) (encryptionKeyEnv : Option String) :
    Except DecryptError String :=
  match parseBundle encryptedData with
  | none => .error .failed
  | some encrypted =>
    match CryptoService.decrypt encrypted (effectiveEncryptionKey encryptionKeyEnv) with
    | .ok decrypted => .ok decrypted.value
    | .error _ => .error .failed

/-- `checkProjectOwnership`: one query filtered by id AND owner. -/
def checkProjectOwnership (projectId userId : String) (db : Db) : Option Project :=
  db.projects.find? (fun p => p.id == projectId && p.userId == userId)

/-- Shared 401 response. -/
def unauthResp : Resp := ⟨401, .errMsg "User not authenticated"⟩

/-- Shared 404 response for a project that is missing or foreign. -/
def projectNotFoundResp : Resp := ⟨404, .errMsg "Project not found"⟩

/-- 404 response for a secret that is missing or in another project. -/
def secretNotFoundResp : Resp := ⟨404, .errMsg "Secret not found"⟩

/-- GET `/:id/secrets` — list metadata, newest first, never values. -/
def getSecrets (user : Option AuthUser) (projectId : String) (db : Db) : Resp × Db :=
  match user with
  | none => (unauthResp, db)
  | some u =>
    match checkProjectOwnership projectId u.userId db with
    | none => (projectNotFoundResp, db)
    | some _ =>
      let secrets := ((db.secrets.filter (fun s => s.projectId == projectId)).mergeSort
        (fun a b => decide (b.createdAt ≤ a.createdAt))).map
        (fun s => SecretMeta.mk s.id s.key s.createdAt s.updatedAt)
      (⟨200, .secretsList secrets⟩, db)

/-- POST `/:id/secrets` — validate, authorize, uniqueness-check,
encrypt, insert. -/
def createSecret (user : Option AuthUser) (projectId : String) (body : ReqBody)
    (ctx : Ctx) (db : Db) : Resp × Db :=
  match user with
  | none => (unauthResp, db)
  | some u =>
    if jsFalsy body.key || jsFalsy body.value then
      (⟨400, .errMsg "Secret key and value are required"⟩, db)
    else if !isString body.key || !isString body.value then
      (⟨400, .errMsg "Secret key and value must be strings"⟩, db)
    else
      let key := asString body.key
      let value := asString body.value
      if (jsTrim key).length = 0 then
        (⟨400, .errMsg "Secret key cannot be empty"⟩, db)
      else
        match checkProjectOwnership projectId u.userId db with
        | none => (projectNotFoundResp, db)
        | some _ =>
          if (db.secrets.find? (fun s => s.projectId == projectId && s.key == key)).isSome then
            (⟨409, .errMsg "Secret key already exists in this project"⟩, db)
          else
            let encryptedValue := encryptSecretValue value ctx.encryptionKeyEnv ctx.ivBytes
            let secret : Secret := ⟨ctx.freshId, key, encryptedValue, projectId, ctx.now, ctx.now⟩
            (⟨201, .createdSecret "Secret created successfully"
                ⟨secret.id, secret.key, secret.createdAt, secret.updatedAt⟩⟩,
             ⟨db.projects, db.secrets ++ [secret]⟩)

/-- GET `/:id/secrets/:secretId` — the only path that decrypts. -/
def getSecret (user : Option AuthUser) (projectId secretId : String) (ctx : Ctx)
    (db : Db) : Resp × Db :=
  match user with
  | none => (unauthResp, db)
  | some u =>
    match checkProjectOwnership projectId u.userId db with
    | none => (projectNotFoundResp, db)
    | some _ =>
      match db.secrets.find? (fun s => s.id == secretId && s.projectId == projectId) with
      | none => (secretNotFoundResp, db)
      | some secret =>
        match decryptSecretValue secret.value ctx.encryptionKeyEnv with
        | .error _ => (⟨500, .errMsg "Internal server error"⟩, db)
        | .ok decryptedValue =>
          (⟨200, .fullSecret secret.id secret.key decryptedValue secret.createdAt
            secret.updatedAt⟩, db)

/-- PUT `/:id/secrets/:secretId` — validate, authorize, re-encrypt the
value of an existing secret. -/
def updateSecret (user : Option AuthUser) (projectId secretId : String) (body : ReqBody)
    (ctx : Ctx) (db : Db) : Resp × Db :=
  match user with
  | none => (unauthResp, db)
  | some u =>
    if jsFalsy body.value || !isString body.value then
      (⟨400, .errMsg "Secret value is required and must be a string"⟩, db)
    else
      match checkProjectOwnership projectId u.userId db with
      | none => (projectNotFoundResp, db)
      | some _ =>
        match db.secrets.find? (fun s => s.id == secretId && s.projectId == projectId) with
        | none => (secretNotFoundResp, db)
        | some existingSecret =>
          let encryptedValue := encryptSecretValue (asString body.value)
            ctx.encryptionKeyEnv ctx.ivBytes
          let secrets := db.secrets.map (fun s =>
            if s.id == secretId then
              { s with value := encryptedValue, updatedAt := ctx.now } else s)
          (⟨200, .updatedSecret "Secret updated successfully"
              ⟨existingSecret.id, existingSecret.key, existingSecret.createdAt, ctx.now⟩⟩,
           ⟨db.projects, secrets⟩)

/-- DELETE `/:id/secrets/:secretId`. -/
def deleteSecret (user : Option AuthUser) (projectId secretId : String) (db : Db) :
    Resp × Db :=
  match user with
  | none => (unauthResp, db)
  | some u =>
    match checkProjectOwnership projectId u.userId db with
    | none => (projectNotFoundResp, db)
    | some _ =>
      match db.secrets.find? (fun s => s.id == secretId && s.projectId == projectId) with
      | none => (secretNotFoundResp, db)
      | some _ =>
        (⟨200, .message "Secret deleted successfully"⟩,
         ⟨db.projects, db.secrets.filter (fun s => s.id != secretId)⟩)

/-- The five secret operations, as one dispatchable family. -/
inductive Op where
  | list
  | create
  | readOne
  | update
  | delete
deriving Repr, DecidableEq

/-- Dispatch one secret operation. -/
def handleOp (op : Op) (user : Option AuthUser) (projectId secretId : String)
    (body : ReqBody) (ctx : Ctx) (db : Db) : Resp × Db :=
  match op with
  | .list => getSecrets user projectId db
  | .create => createSecret user projectId body ctx db
  | .readOne => getSecret user projectId secretId ctx db
  | .update => updateSecret user projectId secretId body ctx db
  | .delete => deleteSecret user projectId secretId db

end KeepSafe

/-!
Part 8 — helper lemmas feeding the claim theorems.
-/

namespace KeepSafe

/-- On an all-hex character list of even length the lenient decoder
consumes everything: one byte per pair. -/
theorem hexPairs_length_hex : ∀ (cs : List Char), (∀ c ∈ cs, isHexDigitChar c) →
    cs.length % 2 = 0 → (hexPairs cs).length = cs.length / 2
  | [], _, _ => by simp [hexPairs]
  | [c], _, he => by simp at he
  | c1 :: c2 :: rest, h, he => by
    have h1 : (hexVal c1).isSome := h c1 (by simp)
    have h2 : (hexVal c2).isSome := h c2 (by simp)
    obtain ⟨a, ha⟩ := Option.isSome_iff_exists.mp h1
    obtain ⟨b, hb⟩ := Option.isSome_iff_exists.mp h2
    rw [hexPairs, ha, hb]
    have hrest := hexPairs_length_hex rest
      (fun c hc => h c (by simp [hc]))
      (by simp only [List.length_cons] at he ⊢; omega)
    simp only [List.length_cons, hrest]
    omega

/-- Two characters that differ at most in ASCII letter case. -/
def charCaseEquivB (a b : Char) : Bool :=
  a == b || (decide (a.toNat + 32 = b.toNat) && decide (65 ≤ a.toNat) && decide (a.toNat ≤ 90))
    || (decide (b.toNat + 32 = a.toNat) && decide (65 ≤ b.toNat) && decide (b.toNat ≤ 90))

/-- Two character lists equal up to ASCII letter case, position by
position. -/
def caseEquivChars : List Char → List Char → Bool
  | [], [] => true
  | a :: as, b :: bs => charCaseEquivB a b && caseEquivChars as bs
  | _, _ => false

/-- Case-equivalent characters have the same hex value (hex parsing is
case-insensitive). -/
theorem hexVal_upper_lower (a b : Char) (h1 : a.toNat + 32 = b.toNat)
    (h2 : 65 ≤ a.toNat) (h3 : a.toNat ≤ 90) : hexVal a = hexVal b := by
  unfold hexVal
  rw [if_neg (show ¬(48 ≤ a.toNat ∧ a.toNat ≤ 57) by omega),
    if_neg (show ¬(97 ≤ a.toNat ∧ a.toNat ≤ 102) by omega),
    if_neg (show ¬(48 ≤ b.toNat ∧ b.toNat ≤ 57) by omega)]
  by_cases hc : a.toNat ≤ 70
  · rw [if_pos (show 65 ≤ a.toNat ∧ a.toNat ≤ 70 by omega),
      if_pos (show 97 ≤ b.toNat ∧ b.toNat ≤ 102 by omega)]
    simp only [Option.some.injEq]
    omega
  · rw [if_neg (show ¬(65 ≤ a.toNat ∧ a.toNat ≤ 70) by omega),
      if_neg (show ¬(97 ≤ b.toNat ∧ b.toNat ≤ 102) by omega),
      if_neg (show ¬(65 ≤ b.toNat ∧ b.toNat ≤ 70) by omega)]

theorem hexVal_caseEquiv (a b : Char) (h : charCaseEquivB a b = true) :
    hexVal a = hexVal b := by
  unfold charCaseEquivB at h
  simp only [Bool.or_eq_true, Bool.and_eq_true, beq_iff_eq, decide_eq_true_eq] at h
  rcases h with (rfl | ⟨⟨h1, h2⟩, h3⟩) | ⟨⟨h1, h2⟩, h3⟩
  · rfl
  · exact hexVal_upper_lower a b h1 h2 h3
  · exact (hexVal_upper_lower b a h1 h2 h3).symm

/-- The lenient hex decoder is invariant under letter case. -/
theorem hexPairs_caseEquiv : ∀ (cs ds : List Char), caseEquivChars cs ds = true →
    hexPairs cs = hexPairs ds
  | [], [], _ => rfl
  | [c], [d], _ => rfl
  | c1 :: c2 :: cs, d1 :: d2 :: ds, h => by
    rw [caseEquivChars, Bool.and_eq_true, caseEquivChars, Bool.and_eq_true] at h
    obtain ⟨h1, h2, htail⟩ := h
    rw [hexPairs, hexPairs, hexVal_caseEquiv _ _ h1, hexVal_caseEquiv _ _ h2]
    cases hexVal d1 with
    | none => rfl
    | some a =>
      cases hexVal d2 with
      | none => rfl
      | some b => rw [hexPairs_caseEquiv cs ds htail]
  | [], _ :: _, h => by simp [caseEquivChars] at h
  | _ :: _, [], h => by simp [caseEquivChars] at h
  | [_], _ :: _ :: _, h => by simp [caseEquivChars, charCaseEquivB] at h
  | _ :: _ :: _, [_], h => by simp [caseEquivChars, charCaseEquivB] at h

/-- Case-equivalent character lists have equal length. -/
theorem caseEquivChars_length : ∀ (cs ds : List Char), caseEquivChars cs ds = true →
    cs.length = ds.length
  | [], [], _ => rfl
  | a :: as, b :: bs, h => by
    rw [caseEquivChars, Bool.and_eq_true] at h
    simp [caseEquivChars_length as bs h.2]
  | [], _ :: _, h => by simp [caseEquivChars] at h
  | _ :: _, [], h => by simp [caseEquivChars] at h

/-- Hex-digit-ness transfers across case equivalence. -/
theorem caseEquivChars_hex : ∀ (cs ds : List Char), caseEquivChars cs ds = true →
    (∀ c ∈ cs, isHexDigitChar c) → ∀ d ∈ ds, isHexDigitChar d
  | [], [], _, _ => by simp
  | a :: as, b :: bs, h, hall => by
    rw [caseEquivChars, Bool.and_eq_true] at h
    intro d hd
    rcases List.mem_cons.mp hd with rfl | hd
    · unfold isHexDigitChar
      rw [← hexVal_caseEquiv a d h.1]
      exact hall a (List.mem_cons_self ..)
    · exact caseEquivChars_hex as bs h.2
        (fun c hc => hall c (List.mem_cons_of_mem _ hc)) d hd
  | [], _ :: _, h, _ => by simp [caseEquivChars] at h
  | _ :: _, [], h, _ => by simp [caseEquivChars] at h

/-- Appending a dangling non-hex character to an encoded byte string
does not change what the lenient decoder returns. -/
theorem hexDecodeLenient_encode_append_junk (bs : List Nat) (hb : ∀ b ∈ bs, b < 256)
    (junk : String) (hjunk : hexPairs junk.data = []) :
    hexDecodeLenient (hexEncode bs ++ junk) = bs := by
  have h := hexPairs_encode bs hb junk.data
  unfold hexDecodeLenient hexEncode at *
  rw [String.data_append] at *
  simpa [hjunk] using h

/-- Validation predicate of the create and update handlers, phrased as
the exact boolean conditions the code tests. -/
def inputOk : Op → ReqBody → Prop
  | .create, body =>
      (jsFalsy body.key || jsFalsy body.value) = false ∧
      (!isString body.key || !isString body.value) = false ∧
      (jsTrim (asString body.key)).length ≠ 0
  | .update, body => (jsFalsy body.value || !isString body.value) = false
  | _, _ => True

end KeepSafe

/-!
Part 9 — claim theorems (crypto layer).
-/

namespace KeepSafe

/-- C1: for every string `s` (including the empty string and
non-ASCII/multibyte content) and every key, decrypting the bundle
produced by `encrypt(s, key)` with the same key returns exactly `s`.
The 16 random bytes drawn by `randomBytes(16)` inside `encrypt` are the
explicit `iv` argument. -/
theorem C1_decrypt_encrypt_roundtrip (s key : String) (iv : List Nat)
    (hlen : iv.length = 16) (hb : ∀ b ∈ iv, b < 256) :
    CryptoService.decrypt (CryptoService.encrypt s key iv) key = .ok ⟨s⟩ :=
  decrypt_encrypt s key iv (fun h => by simp [h] at hlen) hb

/-- Witness for C1: a concrete multibyte plaintext, key and IV draw. -/
theorem C1_witness :
    CryptoService.decrypt (CryptoService.encrypt "héllo ✓" "master-key" (List.range 16))
      "master-key" = .ok ⟨"héllo ✓"⟩ :=
  C1_decrypt_encrypt_roundtrip "héllo ✓" "master-key" (List.range 16) (by decide) (by decide)

/-- C2 (amended): `decrypt` either returns a plaintext or fails with the
single generic error kind; it releases plaintext only when the decoded
stored tag matches the tag recomputed under the supplied key over the
decoded ciphertext (truncated comparison), and any two failures — tag
mismatch, truncated/empty IV, invalid tag length, wrong key — carry the
identical error value, never indicating which field was wrong. (The
original claim's "malformed hex in any field fails" is refuted by the
counterexample: hex fields are decoded leniently, Buffer.from-style, so
trailing junk that leaves the decoded bytes unchanged still decrypts.) -/
theorem C2_decrypt_single_error_kind (bundle : EncryptedData) (key : String) :
    ((∃ v, CryptoService.decrypt bundle key = .ok v) ∨
      CryptoService.decrypt bundle key = .error .failed) ∧
    (∀ v, CryptoService.decrypt bundle key = .ok v →
      hexDecodeLenient bundle.iv ≠ [] ∧
      hexDecodeLenient bundle.authTag =
        (gcmTag (CryptoService.normalizeKey key) (hexDecodeLenient bundle.iv)
          (hexDecodeLenient bundle.encryptedValue)).take
          (hexDecodeLenient bundle.authTag).length) ∧
    (∀ (b2 : EncryptedData) (k2 : String) (e1 e2 : DecryptError),
      CryptoService.decrypt bundle key = .error e1 →
      CryptoService.decrypt b2 k2 = .error e2 → e1 = e2) := by
  refine ⟨?_, ?_, ?_⟩
  · cases hd : CryptoService.decrypt bundle key with
    | ok v => exact .inl ⟨v, rfl⟩
    | error e => cases e; exact .inr rfl
  · intro v hv
    unfold CryptoService.decrypt at hv
    dsimp only at hv
    split_ifs at hv with h1 h2 h3
    all_goals first
      | exact Except.noConfusion hv
      | exact ⟨by simpa [List.length_eq_zero] using h1, h3⟩
  · intro b2 k2 e1 e2 _ _
    cases e1
    cases e2
    rfl

/-- Witness for C2: the ok-branch hypothesis discharged by the round
trip on a concrete bundle, the error-branch hypotheses discharged on a
concrete empty bundle. -/
theorem C2_witness :
    (hexDecodeLenient (CryptoService.encrypt "hi" "master-key" (List.range 16)).iv ≠ [] ∧
      hexDecodeLenient (CryptoService.encrypt "hi" "master-key" (List.range 16)).authTag =
        (gcmTag (CryptoService.normalizeKey "master-key")
          (hexDecodeLenient (CryptoService.encrypt "hi" "master-key" (List.range 16)).iv)
          (hexDecodeLenient
            (CryptoService.encrypt "hi" "master-key" (List.range 16)).encryptedValue)).take
          (hexDecodeLenient
            (CryptoService.encrypt "hi" "master-key" (List.range 16)).authTag).length) ∧
    DecryptError.failed = DecryptError.failed :=
  ⟨(C2_decrypt_single_error_kind (CryptoService.encrypt "hi" "master-key" (List.range 16))
      "master-key").2.1 ⟨"hi"⟩
      (decrypt_encrypt "hi" "master-key" (List.range 16) (by decide) (by decide)),
   (C2_decrypt_single_error_kind ⟨"", "", ""⟩ "k").2.2 ⟨"", "", ""⟩ "k" .failed .failed
      rfl rfl⟩

/-- Counterexample for C2: a bundle whose `iv` field is malformed hex
(a trailing non-hex character) is decoded leniently to the original IV
bytes and therefore still decrypts successfully, instead of failing as
the claim states. -/
theorem C2_counterexample :
    'z' ∈ ((CryptoService.encrypt "hi" "master-key" (List.range 16)).iv ++ "z").data ∧
    isHexDigitChar 'z' = false ∧
    CryptoService.decrypt
      ⟨(CryptoService.encrypt "hi" "master-key" (List.range 16)).encryptedValue,
       (CryptoService.encrypt "hi" "master-key" (List.range 16)).iv ++ "z",
       (CryptoService.encrypt "hi" "master-key" (List.range 16)).authTag⟩
      "master-key" = .ok ⟨"hi"⟩ := by
  refine ⟨?_, by decide, ?_⟩
  · rw [String.data_append]
    exact List.mem_append_right _ (by decide)
  · have hivdec : hexDecodeLenient
        ((CryptoService.encrypt "hi" "master-key" (List.range 16)).iv ++ "z") =
        List.range 16 := by
      have hfld : (CryptoService.encrypt "hi" "master-key" (List.range 16)).iv =
          hexEncode (List.range 16) := rfl
      rw [hfld]
      exact hexDecodeLenient_encode_append_junk (List.range 16) (by decide) "z" (by decide)
    exact decrypt_encrypt_withIvStr "hi" "master-key" (List.range 16) _ hivdec (by decide)

/-- C6: `normalizeKey` is total and deterministic on all strings and
always returns exactly 32 bytes; a 64-character hex string (the regex
`^[0-9a-fA-F]+$` with length 64) is decoded directly, anything else is
hashed with SHA-256 over its UTF-8 bytes. -/
theorem C6_normalizeKey_total_32_bytes (key : String) :
    (CryptoService.normalizeKey key).length = 32 ∧
    (key.length = 64 ∧ key.data.all isHexDigitChar →
      CryptoService.normalizeKey key = hexDecodeLenient key) ∧
    (¬(key.length = 64 ∧ key.data.all isHexDigitChar) →
      CryptoService.normalizeKey key = sha256 (utf8Encode key)) := by
  refine ⟨?_, ?_, ?_⟩
  · unfold CryptoService.normalizeKey
    split_ifs with h
    · obtain ⟨h64, hall⟩ := h
      have hlen : (hexPairs key.data).length = key.data.length / 2 :=
        hexPairs_length_hex key.data (by simpa [List.all_eq_true] using hall)
          (by
            have : key.data.length = 64 := h64
            omega)
      have : key.data.length = 64 := h64
      unfold hexDecodeLenient
      omega
    · exact sha256_length _
  · intro h
    unfold CryptoService.normalizeKey
    rw [if_pos h]
  · intro h
    unfold CryptoService.normalizeKey
    rw [if_neg h]

/-- Witness for C6: the hex branch at a concrete 64-character hex key,
the hash branch at a concrete passphrase. -/
theorem C6_witness :
    CryptoService.normalizeKey
        "00112233445566778899aabbccddeeff00112233445566778899aabbccddeeff" =
      hexDecodeLenient
        "00112233445566778899aabbccddeeff00112233445566778899aabbccddeeff" ∧
    (CryptoService.normalizeKey "pw").length = 32 ∧
    CryptoService.normalizeKey "pw" = sha256 (utf8Encode "pw") :=
  ⟨(C6_normalizeKey_total_32_bytes
      "00112233445566778899aabbccddeeff00112233445566778899aabbccddeeff").2.1 (by decide),
   (C6_normalizeKey_total_32_bytes "pw").1,
   (C6_normalizeKey_total_32_bytes "pw").2.2 (by decide)⟩

end KeepSafe

namespace KeepSafe

/-- C7 (amended): the nonce is exactly 16 bytes (128 bits, 32 hex
characters in the bundle), and whenever two calls draw distinct random
nonces — the `randomBytes(16)` draw is the explicit `iv` argument — the
two bundles differ, their nonce fields already differing. (The original
claim's "different ciphertext" is refuted by the counterexample: for the
empty plaintext both ciphertext fields are empty and equal.) -/
theorem C7_distinct_nonce_distinct_bundles (s key : String) (iv1 iv2 : List Nat)
    (h1 : iv1.length = 16) (hb1 : ∀ b ∈ iv1, b < 256) (hb2 : ∀ b ∈ iv2, b < 256)
    (hne : iv1 ≠ iv2) :
    (CryptoService.encrypt s key iv1).iv ≠ (CryptoService.encrypt s key iv2).iv ∧
    CryptoService.encrypt s key iv1 ≠ CryptoService.encrypt s key iv2 ∧
    (CryptoService.encrypt s key iv1).iv.length = 32 := by
  have hfld : ∀ iv : List Nat, (CryptoService.encrypt s key iv).iv = hexEncode iv :=
    fun _ => rfl
  have hivne : (CryptoService.encrypt s key iv1).iv ≠ (CryptoService.encrypt s key iv2).iv := by
    rw [hfld, hfld]
    intro h
    exact hne (hexEncode_injective _ _ hb1 hb2 h)
  refine ⟨hivne, ?_, ?_⟩
  · intro h
    exact hivne (congrArg EncryptedData.iv h)
  · rw [hfld, hexEncode_length, h1]

/-- Witness for C7: two concrete distinct IV draws. -/
theorem C7_witness :
    (CryptoService.encrypt "top secret" "master-key" (List.range 16)).iv ≠
      (CryptoService.encrypt "top secret" "master-key" (List.replicate 16 0)).iv ∧
    CryptoService.encrypt "top secret" "master-key" (List.range 16) ≠
      CryptoService.encrypt "top secret" "master-key" (List.replicate 16 0) ∧
    (CryptoService.encrypt "top secret" "master-key" (List.range 16)).iv.length = 32 :=
  C7_distinct_nonce_distinct_bundles "top secret" "master-key" (List.range 16)
    (List.replicate 16 0) (by decide) (by decide) (by decide) (by decide)

/-- Counterexample for C7: encrypting the empty string under two
distinct nonces yields bundles whose ciphertext fields are identical
(both empty), refuting "different nonce and different ciphertext" —
only the nonce (and tag) fields distinguish the bundles. -/
theorem C7_counterexample :
    (CryptoService.encrypt "" "master-key" (List.range 16)).encryptedValue =
      (CryptoService.encrypt "" "master-key" (List.replicate 16 0)).encryptedValue ∧
    (List.range 16 : List Nat) ≠ List.replicate 16 0 ∧
    (CryptoService.encrypt "" "master-key" (List.range 16)).iv ≠
      (CryptoService.encrypt "" "master-key" (List.replicate 16 0)).iv := by
  have hempty : ∀ iv : List Nat,
      (CryptoService.encrypt "" "master-key" iv).encryptedValue = hexEncode [] := by
    intro iv
    show hexEncode (List.zipWith xor8 (utf8Encode "") _) = _
    rw [show utf8Encode "" = [] from rfl, List.zipWith_nil_left]
  refine ⟨by rw [hempty, hempty], by decide, ?_⟩
  show hexEncode (List.range 16) ≠ hexEncode (List.replicate 16 0)
  intro h
  have := hexDecodeLenient_hexEncode (List.range 16) (by decide)
  rw [h, hexDecodeLenient_hexEncode (List.replicate 16 0) (by decide)] at this
  exact absurd this (by decide)

/-- C10: the 64-character hex pass-through of `normalizeKey` is
case-insensitive — any 64-character string of hex digits in either case
is decoded directly (so two master keys differing only in hex letter
case normalize to the same 32 bytes), while a string of any other
length is hashed instead. -/
theorem C10_hex_passthrough_case_insensitive (s t : String)
    (hs64 : s.length = 64) (hsh : s.data.all isHexDigitChar)
    (hcase : caseEquivChars s.data t.data = true) :
    CryptoService.normalizeKey s = hexDecodeLenient s ∧
    CryptoService.normalizeKey s = CryptoService.normalizeKey t ∧
    (∀ u : String, u.length ≠ 64 → CryptoService.normalizeKey u = sha256 (utf8Encode u)) := by
  have hlen : s.data.length = t.data.length := caseEquivChars_length s.data t.data hcase
  have hth : t.data.all isHexDigitChar := by
    rw [List.all_eq_true] at hsh ⊢
    exact caseEquivChars_hex s.data t.data hcase hsh
  have ht64 : t.length = 64 := by
    have hs : s.length = s.data.length := rfl
    have ht : t.length = t.data.length := rfl
    omega
  refine ⟨?_, ?_, ?_⟩
  · unfold CryptoService.normalizeKey
    rw [if_pos ⟨hs64, hsh⟩]
  · unfold CryptoService.normalizeKey
    rw [if_pos ⟨hs64, hsh⟩, if_pos ⟨ht64, hth⟩]
    exact hexPairs_caseEquiv s.data t.data hcase
  · intro u hu
    unfold CryptoService.normalizeKey
    rw [if_neg (fun h => hu h.1)]

/-- Witness for C10: an uppercase and a lowercase spelling of the same
64-character hex key normalize identically; a 63-character hex string is
hashed. -/
theorem C10_witness :
    CryptoService.normalizeKey
        "00112233445566778899AABBCCDDEEFF00112233445566778899AABBCCDDEEFF" =
      CryptoService.normalizeKey
        "00112233445566778899aabbccddeeff00112233445566778899aabbccddeeff" ∧
    CryptoService.normalizeKey
        "0112233445566778899aabbccddeeff00112233445566778899aabbccddeeff" =
      sha256 (utf8Encode
        "0112233445566778899aabbccddeeff00112233445566778899aabbccddeeff") :=
  ⟨(C10_hex_passthrough_case_insensitive
      "00112233445566778899AABBCCDDEEFF00112233445566778899AABBCCDDEEFF"
      "00112233445566778899aabbccddeeff00112233445566778899aabbccddeeff"
      (by decide) (by decide) (by decide)).2.1,
   (C10_hex_passthrough_case_insensitive
      "00112233445566778899AABBCCDDEEFF00112233445566778899AABBCCDDEEFF"
      "00112233445566778899aabbccddeeff00112233445566778899aabbccddeeff"
      (by decide) (by decide) (by decide)).2.2
      "0112233445566778899aabbccddeeff00112233445566778899aabbccddeeff" (by decide)⟩

end KeepSafe

/-!
Part 10 — claim theorems (controller layer).
-/

namespace KeepSafe

/-- A caller matching no project row by id AND owner gets `none` from
the ownership lookup. -/
theorem checkProjectOwnership_eq_none (projectId userId : String) (db : Db)
    (hown : ∀ p ∈ db.projects, ¬(p.id = projectId ∧ p.userId = userId)) :
    checkProjectOwnership projectId userId db = none := by
  unfold checkProjectOwnership
  rw [List.find?_eq_none]
  intro p hp
  have := hown p hp
  simp only [Bool.and_eq_true, beq_iff_eq]
  tauto

/-- Create with valid input against an unowned project: 404. -/
theorem createSecret_unowned (u : AuthUser) (projectId : String) (body : ReqBody)
    (ctx : Ctx) (db : Db) (hval : inputOk .create body)
    (hnone : checkProjectOwnership projectId u.userId db = none) :
    (createSecret (some u) projectId body ctx db).1 = projectNotFoundResp := by
  obtain ⟨hv1, hv2, hv3⟩ := hval
  simp [createSecret, hv1, hv2, hv3, hnone]

/-- Update with valid input against an unowned project: 404. -/
theorem updateSecret_unowned (u : AuthUser) (projectId secretId : String)
    (body : ReqBody) (ctx : Ctx) (db : Db) (hval : inputOk .update body)
    (hnone : checkProjectOwnership projectId u.userId db = none) :
    (updateSecret (some u) projectId secretId body ctx db).1 = projectNotFoundResp := by
  have hv : (jsFalsy body.value || !isString body.value) = false := hval
  simp [updateSecret, hv, hnone]

/-- C3: for every secret operation, a principal whose ownership lookup
fails — because the project does not exist or because it is owned by a
different principal, both covered by the single hypothesis that no
project row matches the id AND the caller — receives literally the same
`404 Project not found` response (no existence leakage). Create/update
reach the ownership check only with validation-passing input, hence the
`inputOk` hypothesis. -/
theorem C3_foreign_or_missing_project_not_found (op : Op) (u : AuthUser)
    (projectId secretId : String) (body : ReqBody) (ctx : Ctx) (db : Db)
    (hval : inputOk op body)
    (hown : ∀ p ∈ db.projects, ¬(p.id = projectId ∧ p.userId = u.userId)) :
    (handleOp op (some u) projectId secretId body ctx db).1 = projectNotFoundResp := by
  have hnone : checkProjectOwnership projectId u.userId db = none :=
    checkProjectOwnership_eq_none projectId u.userId db hown
  cases op with
  | list => simp [handleOp, getSecrets, hnone]
  | create => exact createSecret_unowned u projectId body ctx db hval hnone
  | readOne => simp [handleOp, getSecret, hnone]
  | update => exact updateSecret_unowned u projectId secretId body ctx db hval hnone
  | delete => simp [handleOp, deleteSecret, hnone]

/-- Witness for C3: a concrete create call with valid input against a
project owned by a different principal. -/
theorem C3_witness :
    (handleOp .create (some ⟨"u1", "u1@x"⟩) "p1" "s1" ⟨.vStr "API_KEY", .vStr "v"⟩
      ⟨none, [], "fresh", 7⟩ ⟨[⟨"p1", "u2", "other tenant"⟩], []⟩).1 =
      projectNotFoundResp :=
  C3_foreign_or_missing_project_not_found .create ⟨"u1", "u1@x"⟩ "p1" "s1"
    ⟨.vStr "API_KEY", .vStr "v"⟩ ⟨none, [], "fresh", 7⟩ ⟨[⟨"p1", "u2", "other tenant"⟩], []⟩
    (by refine ⟨by decide, by decide, by decide⟩) (by decide)

end KeepSafe

namespace KeepSafe

/-- C4: no secret operation reads or writes a Secret row unless the
ownership check succeeded in that same call. Formally: whenever the
caller is absent or the ownership lookup fails, (a) the response is the
same for any two secret tables — the secrets are never read — and
(b) the store is returned unchanged — the secrets are never written.
Additionally, a create/update call whose input fails validation leaves
the store unchanged and ignores the secret table regardless of
ownership (it exits before any repository interaction). -/
theorem C4_no_secret_access_without_ownership (op : Op) (user : Option AuthUser)
    (projectId secretId : String) (body : ReqBody) (ctx : Ctx)
    (projects : List Project) (s1 s2 : List Secret)
    (hauth : ∀ u, user = some u →
      checkProjectOwnership projectId u.userId ⟨projects, s1⟩ = none) :
    (handleOp op user projectId secretId body ctx ⟨projects, s1⟩).1 =
      (handleOp op user projectId secretId body ctx ⟨projects, s2⟩).1 ∧
    (handleOp op user projectId secretId body ctx ⟨projects, s1⟩).2 = ⟨projects, s1⟩ := by
  cases user with
  | none => cases op <;> exact ⟨rfl, rfl⟩
  | some u =>
    have h1 := hauth u rfl
    have h2 : checkProjectOwnership projectId u.userId ⟨projects, s2⟩ = none := h1
    cases op with
    | list => simp [handleOp, getSecrets, h1, h2]
    | create =>
      simp only [handleOp, createSecret, h1, h2]
      split_ifs <;> exact ⟨rfl, rfl⟩
    | readOne => simp [handleOp, getSecret, h1, h2]
    | update =>
      simp only [handleOp, updateSecret, h1, h2]
      split_ifs <;> exact ⟨rfl, rfl⟩
    | delete => simp [handleOp, deleteSecret, h1, h2]

/-- Witness for C4: a concrete read-one call by a non-owner against two
different secret tables. -/
theorem C4_witness :
    (handleOp .readOne (some ⟨"u1", "u1@x"⟩) "p1" "s1" ⟨.vUndefined, .vUndefined⟩
      ⟨none, [], "fresh", 7⟩ ⟨[⟨"p1", "u2", "n"⟩], [⟨"s1", "K", "v", "p1", 1, 1⟩]⟩).1 =
      (handleOp .readOne (some ⟨"u1", "u1@x"⟩) "p1" "s1" ⟨.vUndefined, .vUndefined⟩
        ⟨none, [], "fresh", 7⟩ ⟨[⟨"p1", "u2", "n"⟩], []⟩).1 ∧
    (handleOp .readOne (some ⟨"u1", "u1@x"⟩) "p1" "s1" ⟨.vUndefined, .vUndefined⟩
      ⟨none, [], "fresh", 7⟩ ⟨[⟨"p1", "u2", "n"⟩], [⟨"s1", "K", "v", "p1", 1, 1⟩]⟩).2 =
      ⟨[⟨"p1", "u2", "n"⟩], [⟨"s1", "K", "v", "p1", 1, 1⟩]⟩ :=
  C4_no_secret_access_without_ownership .readOne (some ⟨"u1", "u1@x"⟩) "p1" "s1"
    ⟨.vUndefined, .vUndefined⟩ ⟨none, [], "fresh", 7⟩ [⟨"p1", "u2", "n"⟩]
    [⟨"s1", "K", "v", "p1", 1, 1⟩] [] (by intro u hu; cases hu; decide)

end KeepSafe

namespace KeepSafe

/-- C5: for a validation-passing create against an authorized project,
the call fails with `409 Conflict` exactly when a secret with the same
`(projectId, key)` pair already exists, and the store is unchanged on
conflict (the check precedes the insert); when no secret in THIS
project has the key — even if the same key exists in another project —
the create succeeds and appends exactly one row. -/
theorem C5_create_conflict_per_project (u : AuthUser) (projectId : String)
    (body : ReqBody) (ctx : Ctx) (db : Db) (p : Project)
    (hval : inputOk .create body)
    (hown : checkProjectOwnership projectId u.userId db = some p) :
    ((∃ s ∈ db.secrets, s.projectId = projectId ∧ s.key = asString body.key) →
      (createSecret (some u) projectId body ctx db).1 =
        ⟨409, .errMsg "Secret key already exists in this project"⟩ ∧
      (createSecret (some u) projectId body ctx db).2 = db) ∧
    ((∀ s ∈ db.secrets, ¬(s.projectId = projectId ∧ s.key = asString body.key)) →
      (createSecret (some u) projectId body ctx db).1 =
        ⟨201, .createdSecret "Secret created successfully"
          ⟨ctx.freshId, asString body.key, ctx.now, ctx.now⟩⟩ ∧
      (createSecret (some u) projectId body ctx db).2 =
        ⟨db.projects, db.secrets ++
          [⟨ctx.freshId, asString body.key,
            encryptSecretValue (asString body.value) ctx.encryptionKeyEnv ctx.ivBytes,
            projectId, ctx.now, ctx.now⟩]⟩) := by
  obtain ⟨hv1, hv2, hv3⟩ := hval
  constructor
  · intro hex
    have hfind : (db.secrets.find? (fun s =>
        s.projectId == projectId && s.key == asString body.key)).isSome = true := by
      rw [List.find?_isSome]
      obtain ⟨s, hs, h1, h2⟩ := hex
      exact ⟨s, hs, by simp [h1, h2]⟩
    constructor <;> simp [createSecret, hv1, hv2, hv3, hown, hfind]
  · intro hnone
    have hfind : db.secrets.find? (fun s =>
        s.projectId == projectId && s.key == asString body.key) = none := by
      rw [List.find?_eq_none]
      intro s hs
      have := hnone s hs
      simp only [Bool.and_eq_true, beq_iff_eq]
      tauto
    constructor <;> simp [createSecret, hv1, hv2, hv3, hown, hfind]

/-- Witness for C5: the conflict branch on a store that already has the
key in the same project, and the success branch on a store whose only
matching key lives in a different project. -/
theorem C5_witness :
    (createSecret (some ⟨"u1", "u1@x"⟩) "p1" ⟨.vStr "API_KEY", .vStr "v"⟩
      ⟨none, [], "fresh", 7⟩
      ⟨[⟨"p1", "u1", "mine"⟩], [⟨"s1", "API_KEY", "old", "p1", 1, 1⟩]⟩).1 =
      ⟨409, .errMsg "Secret key already exists in this project"⟩ ∧
    (createSecret (some ⟨"u1", "u1@x"⟩) "p1" ⟨.vStr "API_KEY", .vStr "v"⟩
      ⟨none, [], "fresh", 7⟩
      ⟨[⟨"p1", "u1", "mine"⟩], [⟨"s1", "API_KEY", "old", "p1", 1, 1⟩]⟩).2 =
      ⟨[⟨"p1", "u1", "mine"⟩], [⟨"s1", "API_KEY", "old", "p1", 1, 1⟩]⟩ ∧
    (createSecret (some ⟨"u1", "u1@x"⟩) "p1" ⟨.vStr "API_KEY", .vStr "v"⟩
      ⟨none, [], "fresh", 7⟩
      ⟨[⟨"p1", "u1", "mine"⟩], [⟨"s2", "API_KEY", "old", "p2", 1, 1⟩]⟩).1 =
      ⟨201, .createdSecret "Secret created successfully" ⟨"fresh", "API_KEY", 7, 7⟩⟩ :=
  ⟨((C5_create_conflict_per_project ⟨"u1", "u1@x"⟩ "p1" ⟨.vStr "API_KEY", .vStr "v"⟩
      ⟨none, [], "fresh", 7⟩ ⟨[⟨"p1", "u1", "mine"⟩], [⟨"s1", "API_KEY", "old", "p1", 1, 1⟩]⟩
      ⟨"p1", "u1", "mine"⟩ ⟨by decide, by decide, by decide⟩ (by decide)).1
      (by exact ⟨⟨"s1", "API_KEY", "old", "p1", 1, 1⟩, by decide, by decide, by decide⟩)).1,
   ((C5_create_conflict_per_project ⟨"u1", "u1@x"⟩ "p1" ⟨.vStr "API_KEY", .vStr "v"⟩
      ⟨none, [], "fresh", 7⟩ ⟨[⟨"p1", "u1", "mine"⟩], [⟨"s1", "API_KEY", "old", "p1", 1, 1⟩]⟩
      ⟨"p1", "u1", "mine"⟩ ⟨by decide, by decide, by decide⟩ (by decide)).1
      (by exact ⟨⟨"s1", "API_KEY", "old", "p1", 1, 1⟩, by decide, by decide, by decide⟩)).2,
   ((C5_create_conflict_per_project ⟨"u1", "u1@x"⟩ "p1" ⟨.vStr "API_KEY", .vStr "v"⟩
      ⟨none, [], "fresh", 7⟩ ⟨[⟨"p1", "u1", "mine"⟩], [⟨"s2", "API_KEY", "old", "p2", 1, 1⟩]⟩
      ⟨"p1", "u1", "mine"⟩ ⟨by decide, by decide, by decide⟩ (by decide)).2
      (by decide)).1⟩

end KeepSafe

namespace KeepSafe

/-- C8 (amended): for create and update, input validation runs BEFORE
the ownership check: invalid input yields a `400` response and an
unchanged store regardless of ownership, and the ownership failure
surfaces as `404 Project not found` only for validation-passing input.
(The original claim — Authorizing strictly before Validating — is
refuted by the counterexample below.) -/
theorem C8_validation_before_authorization (u : AuthUser) (projectId secretId : String)
    (body : ReqBody) (ctx : Ctx) (db : Db) :
    (¬inputOk .create body →
      (createSecret (some u) projectId body ctx db).1.status = 400 ∧
      (createSecret (some u) projectId body ctx db).2 = db) ∧
    (inputOk .create body →
      (∀ p ∈ db.projects, ¬(p.id = projectId ∧ p.userId = u.userId)) →
      (createSecret (some u) projectId body ctx db).1 = projectNotFoundResp) ∧
    (¬inputOk .update body →
      (updateSecret (some u) projectId secretId body ctx db).1.status = 400 ∧
      (updateSecret (some u) projectId secretId body ctx db).2 = db) ∧
    (inputOk .update body →
      (∀ p ∈ db.projects, ¬(p.id = projectId ∧ p.userId = u.userId)) →
      (updateSecret (some u) projectId secretId body ctx db).1 = projectNotFoundResp) := by
  refine ⟨?_, ?_, ?_, ?_⟩
  · intro hbad
    by_cases hc1 : (jsFalsy body.key || jsFalsy body.value) = true
    · constructor <;> simp [createSecret, hc1]
    · replace hc1 : (jsFalsy body.key || jsFalsy body.value) = false := by
        simpa using hc1
      by_cases hc2 : (!isString body.key || !isString body.value) = true
      · constructor <;> simp [createSecret, hc1, hc2]
      · replace hc2 : (!isString body.key || !isString body.value) = false := by
          simpa using hc2
        by_cases hc3 : (jsTrim (asString body.key)).length = 0
        · constructor <;> simp [createSecret, hc1, hc2, hc3]
        · exact absurd ⟨hc1, hc2, hc3⟩ hbad
  · intro hval hown
    exact createSecret_unowned u projectId body ctx db hval
      (checkProjectOwnership_eq_none projectId u.userId db hown)
  · intro hbad
    have hc : (jsFalsy body.value || !isString body.value) = true := by
      by_contra hc
      exact hbad (show (jsFalsy body.value || !isString body.value) = false by
        simpa using hc)
    constructor <;> simp [updateSecret, hc]
  · intro hval hown
    exact updateSecret_unowned u projectId secretId body ctx db hval
      (checkProjectOwnership_eq_none projectId u.userId db hown)

end KeepSafe

namespace KeepSafe

/-- Witness for C8: the invalid-input branch at a concrete body missing
both fields, and the valid-input/unowned branch at a concrete foreign
project. -/
theorem C8_witness :
    ((createSecret (some ⟨"u1", "u1@x"⟩) "p1" ⟨.vUndefined, .vUndefined⟩
        ⟨none, [], "fresh", 7⟩ ⟨[⟨"p1", "u2", "n"⟩], []⟩).1.status = 400 ∧
      (createSecret (some ⟨"u1", "u1@x"⟩) "p1" ⟨.vUndefined, .vUndefined⟩
        ⟨none, [], "fresh", 7⟩ ⟨[⟨"p1", "u2", "n"⟩], []⟩).2 = ⟨[⟨"p1", "u2", "n"⟩], []⟩) ∧
    (updateSecret (some ⟨"u1", "u1@x"⟩) "p1" "s1" ⟨.vUndefined, .vStr "v"⟩
      ⟨none, [], "fresh", 7⟩ ⟨[⟨"p1", "u2", "n"⟩], []⟩).1 = projectNotFoundResp :=
  ⟨(C8_validation_before_authorization ⟨"u1", "u1@x"⟩ "p1" "s1" ⟨.vUndefined, .vUndefined⟩
      ⟨none, [], "fresh", 7⟩ ⟨[⟨"p1", "u2", "n"⟩], []⟩).1 (by intro h; exact absurd h.1 (by decide)),
   (C8_validation_before_authorization ⟨"u1", "u1@x"⟩ "p1" "s1" ⟨.vUndefined, .vStr "v"⟩
      ⟨none, [], "fresh", 7⟩ ⟨[⟨"p1", "u2", "n"⟩], []⟩).2.2.2
      (show (jsFalsy (JsValue.vStr "v") || !isString (JsValue.vStr "v")) = false by decide)
      (by decide)⟩

/-- Counterexample for C8: a create call with invalid input (both body
fields missing) against a project the principal does not own returns
`400 InvalidInput`, not the `404 NotFound` the claim's
Authorizing-before-Validating ordering requires — validation runs
first. -/
theorem C8_counterexample :
    checkProjectOwnership "p1" "u1" ⟨[⟨"p1", "u2", "n"⟩], []⟩ = none ∧
    (createSecret (some ⟨"u1", "u1@x"⟩) "p1" ⟨.vUndefined, .vUndefined⟩
      ⟨none, [], "fresh", 7⟩ ⟨[⟨"p1", "u2", "n"⟩], []⟩).1 =
      ⟨400, .errMsg "Secret key and value are required"⟩ ∧
    (createSecret (some ⟨"u1", "u1@x"⟩) "p1" ⟨.vUndefined, .vUndefined⟩
      ⟨none, [], "fresh", 7⟩ ⟨[⟨"p1", "u2", "n"⟩], []⟩).1 ≠ projectNotFoundResp := by
  refine ⟨by decide, by decide, by decide⟩

/-- C9 (amended): the update handler's validation rejects with the
single `400` InvalidInput response exactly when the `value` field is
not a NONEMPTY string — absent, non-string, and empty-string values are
all rejected (the `!value` truthiness test rejects `""`), refuting the
claim that the empty string passes. -/
theorem C9_update_validation_exact (u : AuthUser) (projectId secretId : String)
    (body : ReqBody) (ctx : Ctx) (db : Db) :
    (updateSecret (some u) projectId secretId body ctx db).1 =
        ⟨400, .errMsg "Secret value is required and must be a string"⟩ ↔
      ¬∃ vs : String, body.value = .vStr vs ∧ vs ≠ "" := by
  by_cases hc : (jsFalsy body.value || !isString body.value) = true
  · have hresp : (updateSecret (some u) projectId secretId body ctx db).1 =
        ⟨400, .errMsg "Secret value is required and must be a string"⟩ := by
      simp [updateSecret, hc]
    simp only [hresp, true_iff]
    rintro ⟨vs, hvs, hne⟩
    rw [hvs] at hc
    simp [jsFalsy, isString] at hc
    exact hne hc
  · replace hc : (jsFalsy body.value || !isString body.value) = false := by simpa using hc
    rw [Bool.or_eq_false_iff] at hc
    obtain ⟨hfal, hstr⟩ := hc
    have hex : ∃ vs : String, body.value = .vStr vs ∧ vs ≠ "" := by
      cases hv : body.value with
      | vStr s =>
        refine ⟨s, rfl, ?_⟩
        rw [hv] at hfal
        simpa [jsFalsy] using hfal
      | vUndefined => rw [hv] at hstr; simp [isString] at hstr
      | vNull => rw [hv] at hstr; simp [isString] at hstr
      | vBool b => rw [hv] at hstr; simp [isString] at hstr
      | vNum n => rw [hv] at hstr; simp [isString] at hstr
    have hv : (jsFalsy body.value || !isString body.value) = false := by
      rw [hfal, hstr]
      rfl
    constructor
    · intro hresp
      exfalso
      revert hresp
      simp only [updateSecret, hv, Bool.false_eq_true, if_false]
      cases hown : checkProjectOwnership projectId u.userId db with
      | none => simp [projectNotFoundResp]
      | some p =>
        cases hfind : db.secrets.find? (fun s => s.id == secretId && s.projectId == projectId)
          with
        | none => simp [secretNotFoundResp]
        | some sec => simp
    · intro hno
      exact absurd hex hno

/-- Counterexample for C9: updating with `value = ""` — present and of
string type — is rejected with `400 InvalidInput` even though the
project is owned by the caller and the secret exists; the empty string
does not pass validation. -/
theorem C9_counterexample :
    (updateSecret (some ⟨"u1", "u1@x"⟩) "p1" "s1" ⟨.vUndefined, .vStr ""⟩
      ⟨none, [], "fresh", 7⟩
      ⟨[⟨"p1", "u1", "mine"⟩], [⟨"s1", "K", "v", "p1", 1, 1⟩]⟩).1 =
      ⟨400, .errMsg "Secret value is required and must be a string"⟩ := by decide

end KeepSafe

namespace KeepSafe

/-- Witness for C9: the characterization applied at a concrete call
whose `value` is a non-string, forcing the `400` response. -/
theorem C9_witness :
    (updateSecret (some ⟨"u2", "u2@x"⟩) "p2" "s2" ⟨.vUndefined, .vNum 3⟩
      ⟨none, [], "id9", 2⟩ ⟨[⟨"p2", "u2", "n"⟩], []⟩).1 =
      ⟨400, .errMsg "Secret value is required and must be a string"⟩ :=
  (C9_update_validation_exact ⟨"u2", "u2@x"⟩ "p2" "s2" ⟨.vUndefined, .vNum 3⟩
    ⟨none, [], "id9", 2⟩ ⟨[⟨"p2", "u2", "n"⟩], []⟩).mpr
    (by rintro ⟨vs, hvs, -⟩; cases hvs)

end KeepSafe
